import Mathlib

/-!
Verification of the inventory system (`modelos/producto.py`,
`servicios/inventario.py`).

Modelling conventions of the shallow embedding:
* Python strings are `List Char`; `str.strip` is `stripL`, `str.split("|")`
  is `splitPipe`, `str.lower` is `toLowerL`, the `in` substring test is
  `contieneSub`.
* Python `int` is `Int` (arbitrary precision).  `int(s)` on an already
  stripped string is `parseInt` (optional sign followed by digits; the
  rarely used underscore separators of Python numerals are not modelled).
* Python `float` values are idealised as exact rationals `ℚ`.  `float(s)`
  is `parseFloat` (sign, digits, optional fractional part, optional
  exponent; `inf`/`nan` literals are not modelled), and `str` applied to a
  float is `ratRepr`, which prints the exact terminating decimal expansion
  of a rational whose denominator divides a power of ten, always with at
  least one digit after the decimal point, exactly as Python prints such
  floats.  Rational values are assembled with a single `mkRat` so that all
  definitions evaluate inside the kernel.
* The file system is an explicit state `FS`: a partial map from paths to
  contents plus flags saying whether opening a path for writing
  (`canWrite`) and `os.replace` (`canReplace`) succeed.  `print` calls
  (the `notificar` flag) are pure console output and are not modelled.
* The messages returned by the operations are modelled by the inductive
  types `MsgGuardar` / `MsgOp`, one constructor per distinct `f`-string of
  the source, carrying the data interpolated into the string.  Load
  warnings are the inductive `Aviso`, carrying the 1-based line number and
  the reason exactly as the source interpolates them.
-/

deriving instance DecidableEq for Except

/-- Python `str.isspace` characters for the ASCII range used by `strip`. -/
def pyIsSpace (c : Char) : Bool :=
  c = ' ' || c = '\t' || c = '\n' || c = '\r' || c = '\x0b' || c = '\x0c'

/-- Python `str.strip()`: drop leading and trailing whitespace. -/
def stripL (s : List Char) : List Char :=
  ((s.dropWhile pyIsSpace).reverse.dropWhile pyIsSpace).reverse

/-- Python `str.split("|")`: split on every `'|'`; `""` splits to `[""]`. -/
def splitPipe : List Char → List (List Char)
  | [] => [[]]
  | c :: resto =>
    if c = '|' then [] :: splitPipe resto
    else
      match splitPipe resto with
      | [] => [[c]]
      | h :: t => (c :: h) :: t

/-- Python `str.lower()` (ASCII case folding, as used on names). -/
def toLowerL (s : List Char) : List Char := s.map Char.toLower

/-- Bool test that `sub` is a prefix of the second list. -/
def esPrefijo : List Char → List Char → Bool
  | [], _ => true
  | _ :: _, [] => false
  | a :: as, b :: bs => a = b && esPrefijo as bs

/-- Python substring test `sub in s`. -/
def contieneSub : List Char → List Char → Bool
  | sub, [] => sub.isEmpty
  | sub, c :: resto => esPrefijo sub (c :: resto) || contieneSub sub resto

/-- The decimal digit character for `d < 10`. -/
def digitToChar (d : Nat) : Char := Char.ofNat (48 + d)

/-- Is `c` one of `'0'`..`'9'`? -/
def isDigitC (c : Char) : Bool := decide (48 ≤ c.toNat) && decide (c.toNat ≤ 57)

/-- Numeric value of a digit character. -/
def digitVal (c : Char) : Nat := c.toNat - 48

/-- Value of a big-endian digit string. -/
def digitsVal (s : List Char) : Nat := s.foldl (fun a c => a * 10 + digitVal c) 0

/-- Fuel-driven big-endian decimal rendering of a natural number. -/
def natDigitsAux : Nat → Nat → List Char → List Char
  | 0, _, acc => acc
  | fuel + 1, n, acc =>
    if n < 10 then digitToChar n :: acc
    else natDigitsAux fuel (n / 10) (digitToChar (n % 10) :: acc)

/-- Python `str` of a natural number. -/
def natRepr (n : Nat) : List Char := natDigitsAux (n + 1) n []

/-- Python `str` of an integer. -/
def intRepr (i : Int) : List Char :=
  if i < 0 then '-' :: natRepr (-i).toNat else natRepr i.toNat

/-- Parse a nonempty all-digit string. -/
def parseNat (s : List Char) : Option Nat :=
  if s.isEmpty then none
  else if s.all isDigitC then some (digitsVal s) else none

/-- Python `int(s)` for an already stripped `s`. -/
def parseInt (s : List Char) : Option Int :=
  if s.head? = some '-' then (parseNat s.tail).map (fun n => -(n : Int))
  else if s.head? = some '+' then (parseNat s.tail).map (fun n => (n : Int))
  else (parseNat s).map (fun n => (n : Int))

/-- Multiplicity of `p` in `n` (with explicit fuel). -/
def pCount (p : Nat) : Nat → Nat → Nat
  | 0, _ => 0
  | fuel + 1, n =>
    if 2 ≤ p ∧ n ≠ 0 ∧ n % p = 0 then pCount p fuel (n / p) + 1 else 0

/-- Number of decimal digits needed after the point for the exact decimal
expansion of `q` (when its denominator divides a power of ten). -/
def decExp (q : ℚ) : Nat := max (pCount 2 q.den q.den) (pCount 5 q.den q.den)

/-- `q` is the exact value of a decimal numeral: its reduced denominator
divides a power of ten.  Every value Python ever writes into the inventory
file satisfies the idealised form of this. -/
def EsDecimal (q : ℚ) : Prop := q.den ∣ 10 ^ decExp q

/-- The `k` fractional digits of a decimal expansion (Python always prints
at least one digit after the point, hence `"0"` when `k = 0`). -/
def padDigits (k frac : Nat) : List Char :=
  if k = 0 then ['0']
  else List.replicate (k - (natRepr frac).length) '0' ++ natRepr frac

/-- Python `str` of a float, idealised on exact rationals: the terminating
decimal expansion with `decExp q` digits after the point. -/
def ratRepr (q : ℚ) : List Char :=
  let k := decExp q
  let m : Nat := q.num.natAbs * 10 ^ k / q.den
  (if q.num < 0 then ['-'] else []) ++
    natRepr (m / 10 ^ k) ++ '.' :: padDigits k (m % 10 ^ k)

/-- Python `float(s)` for an already stripped `s`, on exact rationals. -/
def parseFloat (s : List Char) : Option ℚ :=
  let neg := s.head? = some '-'
  let s1 := if s.head? = some '-' ∨ s.head? = some '+' then s.tail else s
  let ds := s1.takeWhile isDigitC
  let s2 := s1.dropWhile isDigitC
  let hasDot := s2.head? = some '.'
  let fs := if hasDot then s2.tail.takeWhile isDigitC else []
  let s3 := if hasDot then s2.tail.dropWhile isDigitC else s2
  if ds.isEmpty && fs.isEmpty then none
  else
    let mant : Int :=
      (if neg then -1 else 1) * ((digitsVal ds * 10 ^ fs.length + digitsVal fs : Nat) : Int)
    match s3 with
    | [] => some (mkRat mant (10 ^ fs.length))
    | e :: r1 =>
      if e = 'e' ∨ e = 'E' then
        let r2 := if r1.head? = some '-' ∨ r1.head? = some '+' then r1.tail else r1
        if r2.isEmpty || !(r2.all isDigitC) then none
        else if r1.head? = some '-' then
          some (mkRat mant (10 ^ fs.length * 10 ^ digitsVal r2))
        else some (mkRat (mant * ((10 : Nat) ^ digitsVal r2 : Nat)) (10 ^ fs.length))
      else none

/-- `modelos/producto.py`: the record type.  The constructor performs no
validation, exactly like `Producto.__init__`. -/
structure Producto where
  id : List Char
  nombre : List Char
  cantidad : Int
  precio : ℚ
deriving DecidableEq

/-- `Producto.set_nombre` (no validation). -/
def Producto.set_nombre (p : Producto) (nombre : List Char) : Producto :=
  { p with nombre := nombre }

/-- `Producto.set_cantidad`: rejects (raises `ValueError`, modelled as
`none`) a negative quantity, otherwise mutates it. -/
def Producto.set_cantidad (p : Producto) (cantidad : Int) : Option Producto :=
  if cantidad < 0 then none else some { p with cantidad := cantidad }

/-- `Producto.set_precio`: rejects a negative price, otherwise mutates it. -/
def Producto.set_precio (p : Producto) ( precio : ℚ) : Option Producto :=
  if precio < 0 then none else some { p with precio := precio }

/-- `Inventario._producto_a_linea`: serialize to `id|nombre|cantidad|precio`. -/
def producto_a_linea (p : Producto) : List Char :=
  p.id ++ '|' :: p.nombre ++ '|' :: intRepr p.cantidad ++ '|' :: ratRepr p.precio

/-- The distinct `ValueError` reasons raised along `_linea_a_producto`. -/
inductive ParseErr where
  | formato
  | cantidadNoNumerica
  | precioNoNumerico
  | idONombreEnBlanco
deriving DecidableEq

/-- `Inventario._linea_a_producto`: strip, split on `'|'`, demand exactly 4
fields, convert quantity then price (each can fail), then reject an empty
id or name — in exactly the source's order of failure. -/
def linea_a_producto (linea : List Char) : Except ParseErr Producto :=
  match splitPipe (stripL linea) with
  | [c0, c1, c2, c3] =>
    let id_str := stripL c0
    let nombre := stripL c1
    match parseInt (stripL c2) with
    | none => .error .cantidadNoNumerica
    | some cantidad =>
      match parseFloat (stripL c3) with
      | none => .error .precioNoNumerico
      | some precio =>
        if id_str.isEmpty || nombre.isEmpty then .error .idONombreEnBlanco
        else .ok ⟨id_str, nombre, cantidad, precio⟩
  | _ => .error .formato

/-- The load warnings of `_cargar_desde_archivo`, with the 1-based line
number and reason the source interpolates into the message. -/
inductive Aviso where
  | corrupta (linea : Nat) (detalle : ParseErr)
  | duplicado (linea : Nat) (id : List Char)
deriving DecidableEq

/-- The line number carried by a warning. -/
def Aviso.numeroLinea : Aviso → Nat
  | .corrupta n _ => n
  | .duplicado n _ => n

/-- `Inventario._buscar_por_id`: first record with the given id. -/
def buscar_por_id : List Producto → List Char → Option Producto
  | [], _ => none
  | p :: resto, i => if p.id = i then some p else buscar_por_id resto i

/-- Body of the `for num_linea, linea in enumerate(f, start=1)` loop of
`_cargar_desde_archivo` for one line: blank lines are skipped silently,
corrupt lines and duplicate ids are skipped with one warning each. -/
def cargarPaso (n : Nat) (acc : List Producto) (avisos : List Aviso)
    (linea : List Char) : List Producto × List Aviso :=
  let l := stripL linea
  if l.isEmpty then (acc, avisos)
  else
    match linea_a_producto l with
    | .ok prod =>
      if (buscar_por_id acc prod.id).isSome then
        (acc, avisos ++ [.duplicado n prod.id])
      else (acc ++ [prod], avisos)
    | .error e => (acc, avisos ++ [.corrupta n e])

/-- The whole loop of `_cargar_desde_archivo`, threading the 1-based line
counter, the record list and the warning list. -/
def cargarAux : Nat → List Producto → List Aviso → List (List Char) →
    List Producto × List Aviso
  | _, acc, avisos, [] => (acc, avisos)
  | n, acc, avisos, linea :: resto =>
    cargarAux (n + 1) (cargarPaso n acc avisos linea).1
      (cargarPaso n acc avisos linea).2 resto

/-- `Inventario._cargar_desde_archivo` on the list of lines of the file. -/
def cargarLineas (lineas : List (List Char)) : List Producto × List Aviso :=
  cargarAux 1 [] [] lineas

/-- The file system as seen by `_guardar_todo`: contents per path, and
whether opening a path for writing / `os.replace` succeed. -/
structure FS where
  files : String → Option (List Char)
  canWrite : String → Bool
  canReplace : Bool

/-- Write (create or truncate) a file. -/
def FS.write (fs : FS) (ruta : String) (contenido : List Char) : FS :=
  { fs with files := fun p => if p = ruta then some contenido else fs.files p }

/-- `os.remove`. -/
def FS.remove (fs : FS) (ruta : String) : FS :=
  { fs with files := fun p => if p = ruta then none else fs.files p }

/-- `os.replace origen destino`: atomic rename over the destination. -/
def FS.replaceFile (fs : FS) (origen destino : String) : FS :=
  { fs with files := fun p =>
      if p = destino then fs.files origen
      else if p = origen then none
      else fs.files p }

/-- The full serialized contents written by `_guardar_todo` (one line plus
newline per record). -/
def serializar (productos : List Producto) : List Char :=
  (productos.map (fun p => producto_a_linea p ++ ['\n'])).flatten

/-- The `finally` block of `_guardar_todo`: remove the temporary file if it
still exists. -/
def limpiar_tmp (fs : FS) (tmp : String) : FS :=
  if (fs.files tmp).isSome then fs.remove tmp else fs

/-- The messages returned by `_guardar_todo`. -/
inductive MsgGuardar where
  | guardado (ruta : String)
  | permisosInsuficientes (ruta : String)
  | errorSistema (ruta : String)
deriving DecidableEq

/-- `Inventario._guardar_todo`: write everything to `<ruta>.tmp`, then
`os.replace` it over the backing file; on a permission or OS error report
failure; the `finally` block always removes a leftover temporary file. -/
def guardar_todo (ruta : String) (productos : List Producto) (fs : FS) :
    FS × Bool × MsgGuardar :=
  let tmp := ruta ++ ".tmp"
  if fs.canWrite tmp then
    let fs1 := fs.write tmp (serializar productos)
    if fs.canReplace then
      let fs2 := fs1.replaceFile tmp ruta
      (limpiar_tmp fs2 tmp, true, .guardado ruta)
    else (limpiar_tmp fs1 tmp, false, .errorSistema ruta)
  else (limpiar_tmp fs tmp, false, .permisosInsuficientes ruta)

/-- `servicios/inventario.py`: the store state (in-memory records, backing
file path, load warnings). -/
structure Inventario where
  productos : List Producto
  ruta_archivo : String
  avisos_carga : List Aviso
deriving DecidableEq

/-- `Inventario.__init__` after `_asegurar_archivo`: load the given file
contents (as a list of lines) into a fresh store. -/
def inventarioDesdeLineas (ruta : String) (lineas : List (List Char)) :
     Inventario :=
  { productos := (cargarLineas lineas).1
    ruta_archivo := ruta
    avisos_carga := (cargarLineas lineas).2 }

/-- The messages returned by the public mutating operations, one
constructor per distinct message of the source. -/
inductive MsgOp where
  | yaExiste (id : List Char)
  | agregadoGuardado
  | agregadoNoGuardado (detalle : MsgGuardar)
  | noExisteEliminar (id : List Char)
  | eliminadoGuardado
  | eliminadoNoGuardado (detalle : MsgGuardar)
  | noExisteActualizar (id : List Char)
  | datosInvalidos
  | actualizadoGuardado
  | actualizadoNoGuardado (detalle : MsgGuardar)
deriving DecidableEq

/-- `Inventario.anadir_producto`: reject a duplicate id without touching
anything; otherwise append and resave (the record stays in memory even if
the resave fails). -/
def anadir_producto (inv : Inventario) (producto : Producto) (fs : FS) :
     Inventario × FS × Bool × MsgOp :=
  match buscar_por_id inv.productos producto.id with
  | some _ => (inv, fs, false, .yaExiste producto.id)
  | none =>
    let inv1 : Inventario := { inv with productos := inv.productos ++ [producto] }
    let r := guardar_todo inv1.ruta_archivo inv1.productos fs
    (inv1, r.1, r.2.1,
      if r.2.1 then .agregadoGuardado else .agregadoNoGuardado r.2.2)

/-- `list.remove` applied to the object `_buscar_por_id` found: removes the
first record carrying the id. -/
def eliminar_por_id : List Producto → List Char → List Producto
  | [], _ => []
  | p :: resto, i => if p.id = i then resto else p :: eliminar_por_id resto i

/-- `Inventario.eliminar_producto`. -/
def eliminar_producto (inv : Inventario) (i : List Char) (fs : FS) :
     Inventario × FS × Bool × MsgOp :=
  match buscar_por_id inv.productos i with
  | none => (inv, fs, false, .noExisteEliminar i)
  | some _ =>
    let inv1 : Inventario := { inv with productos := eliminar_por_id inv.productos i }
    let r := guardar_todo inv1.ruta_archivo inv1.productos fs
    (inv1, r.1, r.2.1,
      if r.2.1 then .eliminadoGuardado else .eliminadoNoGuardado r.2.2)

/-- Replace (in-place mutation of the object `_buscar_por_id` returned) the
first record carrying the id. -/
def actualizar_en : List Producto → List Char → Producto → List Producto
  | [], _, _ => []
  | p :: resto, i, nuevo =>
    if p.id = i then nuevo :: resto else p :: actualizar_en resto i nuevo

/-- `Inventario.actualizar_producto`: find the record, apply
`set_cantidad` then `set_precio` sequentially; a `ValueError` of the
second setter leaves the first mutation already applied in memory, exactly
as in the source; only a fully successful update resaves. -/
def actualizar_producto (inv : Inventario) (i : List Char)
    (nueva_cantidad : Option Int) ( nuevo_precio : Option ℚ) (fs : FS) :
     Inventario × FS × Bool × MsgOp :=
  match buscar_por_id inv.productos i with
  | none => (inv, fs, false, .noExisteActualizar i)
  | some producto =>
    match (match nueva_cantidad with
           | none => some producto
           | some c => producto.set_cantidad c) with
    | none => (inv, fs, false, .datosInvalidos)
    | some p1 =>
      match (match nuevo_precio with
             | none => some p1
             | some pr => p1.set_precio pr) with
      | none =>
        ({ inv with productos := actualizar_en inv.productos i p1 }, fs, false,
          .datosInvalidos)
      | some p2 =>
        let inv2 : Inventario := { inv with productos := actualizar_en inv.productos i p2 }
        let r := guardar_todo inv2.ruta_archivo inv2.productos fs
        (inv2, r.1, r.2.1,
          if r.2.1 then .actualizadoGuardado else .actualizadoNoGuardado r.2.2)

/-- `Inventario.buscar_por_nombre`: case-insensitive substring filter. -/
def buscar_por_nombre (inv : Inventario) (texto : List Char) : List Producto :=
  inv.productos.filter (fun p => contieneSub (toLowerL texto) (toLowerL p.nombre))

/-- `Inventario.listar_productos` (value returned; see `EstadoPy` below for
the aliasing the source's `return self._productos` creates). -/
def listar_productos (inv : Inventario) : List Producto := inv.productos

/-- `Inventario.obtener_avisos_carga` (note: this one copies, `list(...)`). -/
def obtener_avisos_carga (inv : Inventario) : List Aviso := inv.avisos_carga

/-!
A minimal model of Python object aliasing, needed only to settle what
`listar_productos` — which returns the internal list object itself, not a
copy — allows a caller to do.  The heap holds list objects; the store owns
a reference into it.
-/

/-- Python heap of list objects plus the store's reference to its
`_productos` list. -/
structure EstadoPy where
  heap : List (List Producto)
  refProductos : Nat

/-- Dereference a list object. -/
def leerRef (st : EstadoPy) (r : Nat) : List Producto := st.heap.getD r []

/-- `listar_productos` under aliasing: `return self._productos` hands the
caller the very same reference, not a copy. -/
def listarRef (st : EstadoPy) : Nat := st.refProductos

/-- A caller doing `lst.append(p)` on a list reference it holds. -/
def appendRef (st : EstadoPy) (r : Nat) (p : Producto) : EstadoPy :=
  { st with heap := st.heap.set r (leerRef st r ++ [p]) }

/-!  Operation sequences for the invariant claims.  -/

/-- One public mutating call. -/
inductive Op where
  | anadir (p : Producto)
  | eliminar (i : List Char)
  | actualizar (i : List Char) (nc : Option Int) (np : Option ℚ)

/-- Apply one operation to the (store, file-system) state, keeping only the
state (the returned flag and message do not feed back). -/
def pasoOp (s : Inventario × FS) : Op → Inventario × FS
  | .anadir p =>
    ((anadir_producto s.1 p s.2).1, (anadir_producto s.1 p s.2).2.1)
  | .eliminar i =>
    ((eliminar_producto s.1 i s.2).1, (eliminar_producto s.1 i s.2).2.1)
  | .actualizar i nc np =>
    ((actualizar_producto s.1 i nc np s.2).1, (actualizar_producto s.1 i nc np s.2).2.1)

/-- Run a whole sequence of public operations. -/
def ejecutar (s : Inventario × FS) (ops : List Op) : Inventario × FS :=
  ops.foldl pasoOp s

/-!  The predicates the claims quantify over.  -/

/-- The ids held in a record list. -/
def idsDe (l : List Producto) : List (List Char) := l.map Producto.id

/-- At most one record per id. -/
def NoDupIds (l : List Producto) : Prop := (idsDe l).Nodup

/-- Every record has non-negative quantity and price. -/
def NoNeg (l : List Producto) : Prop := ∀ p ∈ l, 0 ≤ p.cantidad ∧ 0 ≤ p.precio

/-- An add operation supplying a non-negative record (`true` for the other
operations). -/
def opNoNeg : Op → Bool
  | .anadir p => decide (0 ≤ p.cantidad) && decide (0 ≤ p.precio)
  | _ => true

/-- A text field that survives the file format: nonempty, free of the field
separator and the line separator, and with no surrounding whitespace (so
`strip` leaves it alone). -/
def buenCampo (s : List Char) : Bool :=
  !s.isEmpty && !s.contains '|' && !s.contains '\n' &&
    (match s.head? with | none => true | some c => !pyIsSpace c) &&
    (match s.getLast? with | none => true | some c => !pyIsSpace c)

/-- A record whose serialized line reloads verbatim: good id and name, and
a price that is the exact value of a decimal numeral. -/
def BuenProducto (p : Producto) : Prop :=
  buenCampo p.id = true ∧ buenCampo p.nombre = true ∧ EsDecimal p.precio

instance (l : List Producto) : Decidable (NoDupIds l) :=
  inferInstanceAs (Decidable (idsDe l).Nodup)

instance (l : List Producto) : Decidable (NoNeg l) :=
  inferInstanceAs (Decidable (∀ p ∈ l, 0 ≤ p.cantidad ∧ 0 ≤ p.precio))

instance (q : ℚ) : Decidable (EsDecimal q) :=
  inferInstanceAs (Decidable (q.den ∣ 10 ^ decExp q))

instance (p : Producto) : Decidable (BuenProducto p) :=
  inferInstanceAs
    (Decidable (buenCampo p.id = true ∧ buenCampo p.nombre = true ∧ EsDecimal p.precio))

/-!  ## General helper lemmas  -/

theorem dropWhile_eq_self_of_head {p : Char → Bool} {s : List Char}
    (h : ∀ c, s.head? = some c → p c = false) : s.dropWhile p = s := by
  cases s with
  | nil => rfl
  | cons c t => simp [List.dropWhile_cons, h c rfl]

theorem stripL_eq_self {s : List Char}
    (h1 : ∀ c, s.head? = some c → pyIsSpace c = false)
    (h2 : ∀ c, s.getLast? = some c → pyIsSpace c = false) : stripL s = s := by
  unfold stripL
  rw [dropWhile_eq_self_of_head h1]
  rw [dropWhile_eq_self_of_head ?_, List.reverse_reverse]
  intro c hc
  rw [List.head?_reverse] at hc
  exact h2 c hc

theorem esPrefijo_iff : ∀ (a b : List Char), esPrefijo a b = true ↔ a <+: b
  | [], _ => by simp [esPrefijo]
  | _ :: _, [] => by simp [esPrefijo]
  | c :: t, d :: u => by
    show (decide (c = d) && esPrefijo t u) = true ↔ _
    rw [Bool.and_eq_true, decide_eq_true_eq, List.cons_prefix_cons]
    exact and_congr Iff.rfl (esPrefijo_iff t u)

theorem contieneSub_iff : ∀ (sub s : List Char), contieneSub sub s = true ↔ sub <:+: s
  | sub, [] => by simp [contieneSub, List.isEmpty_iff]
  | sub, c :: resto => by
    simp [contieneSub, esPrefijo_iff, contieneSub_iff sub resto, List.infix_cons_iff]

theorem buscar_por_id_some {l : List Producto} {i : List Char} {p : Producto}
    (h : buscar_por_id l i = some p) : p.id = i ∧ p ∈ l := by
  induction l with
  | nil => simp [buscar_por_id] at h
  | cons q t ih =>
    by_cases hq : q.id = i
    · simp [buscar_por_id, hq] at h
      exact ⟨h ▸ hq, by simp [h]⟩
    · simp [buscar_por_id, hq] at h
      rcases ih h with ⟨h1, h2⟩
      exact ⟨h1, by simp [h2]⟩

theorem buscar_actualizar_en {l : List Producto} {i : List Char} {p0 nuevo : Producto}
    (h : buscar_por_id l i = some p0) (hid : nuevo.id = i) :
    buscar_por_id (actualizar_en l i nuevo) i = some nuevo := by
  induction l with
  | nil => simp [buscar_por_id] at h
  | cons q t ih =>
    by_cases hq : q.id = i
    · simp [actualizar_en, hq, buscar_por_id, hid]
    · simp only [actualizar_en, buscar_por_id, hq, if_false, if_neg hq] at h ⊢
      exact ih h

theorem tmp_ne (ruta : String) : ruta ++ ".tmp" ≠ ruta := by
  intro h
  have h2 : (ruta ++ ".tmp").length = ruta.length := by rw [h]
  have h3 : String.length ".tmp" = 4 := rfl
  rw [String.length_append, h3] at h2
  omega

/-!  ## Claim theorems (first group)  -/

/-- C8: `buscar_por_nombre` returns exactly the records whose lowered name
contains the lowered query as a substring, in store order (it is a pure
filter over `productos`, so it cannot modify the store), and the empty
query returns every record. -/
theorem c8_buscar_por_nombre ( inv : Inventario) (texto : List Char) :
    buscar_por_nombre inv texto =
      inv.productos.filter
        (fun p => decide ( List.IsInfix (toLowerL texto) (toLowerL p.nombre))) ∧
    buscar_por_nombre inv [] = inv.productos := by
  constructor
  · unfold buscar_por_nombre
    apply List.filter_congr
    intro p _
    rcases h : contieneSub (toLowerL texto) (toLowerL p.nombre) with _ | _
    · symm
      rw [decide_eq_false_iff_not, ← contieneSub_iff, h]
      simp
    · symm
      rw [decide_eq_true_eq, ← contieneSub_iff]
      exact h
  · unfold buscar_por_nombre
    rw [List.filter_eq_self]
    intro p _
    rw [contieneSub_iff]
    simp [toLowerL]

/-- C3: `actualizar_producto` on an existing id with a valid (non-negative)
quantity and an invalid (negative) price returns failure, does not resave
(the file system is returned untouched), yet the in-memory record already
holds the new quantity: the sequential partial update of the source. -/
theorem c3_actualizacion_parcial ( inv : Inventario) (fs : FS) (i : List Char)
    (c : Int) (pr : ℚ) (p0 : Producto)
    (hfind : buscar_por_id inv.productos i = some p0)
    (hc : 0 ≤ c) (hpr : pr < 0) :
    actualizar_producto inv i (some c) (some pr) fs =
      ({ inv with productos := actualizar_en inv.productos i { p0 with cantidad := c } },
        fs, false, .datosInvalidos) ∧
    buscar_por_id (actualizar_producto inv i (some c) (some pr) fs).1.productos i =
      some { p0 with cantidad := c } := by
  have hcant : p0.set_cantidad c = some { p0 with cantidad := c } := by
    simp [Producto.set_cantidad, not_lt.mpr hc]
  have hprec : Producto.set_precio { p0 with cantidad := c } pr = none := by
    simp [ Producto.set_precio, hpr]
  have hmain : actualizar_producto inv i (some c) (some pr) fs =
      ({ inv with productos := actualizar_en inv.productos i { p0 with cantidad := c } },
        fs, false, .datosInvalidos) := by
    simp [actualizar_producto, hfind, hcant, hprec]
  refine ⟨hmain, ?_⟩
  rw [hmain]
  exact buscar_actualizar_en hfind (buscar_por_id_some hfind).1

/-- C3 witness at a concrete store. -/
theorem c3_actualizacion_parcial_witness :
    buscar_por_id ([⟨['A'], ['B'], 1, 1⟩] : List Producto) ['A'] = some ⟨['A'], ['B'], 1, 1⟩ ∧
    (0 : Int) ≤ 7 ∧ mkRat (-1) 1 < (0 : ℚ) ∧
    buscar_por_id (actualizar_producto ⟨[⟨['A'], ['B'], 1, 1⟩], "inv.txt", []⟩ ['A']
        (some 7) (some (mkRat (-1) 1)) ⟨fun _ => none, fun _ => true, true⟩).1.productos ['A'] =
      some ⟨['A'], ['B'], 7, 1⟩ :=
  ⟨by decide, by decide, by decide,
    (c3_actualizacion_parcial ⟨[⟨['A'], ['B'], 1, 1⟩], "inv.txt", []⟩
      ⟨fun _ => none, fun _ => true, true⟩ ['A'] 7 (mkRat (-1) 1) ⟨['A'], ['B'], 1, 1⟩
      (by decide) (by decide) (by decide)).2⟩

/-- C4: adding a record whose id already exists, removing an unknown id and
updating an unknown id each return failure and hand back the store state
completely unchanged. -/
theorem c4_fallos_sin_mutacion ( inv : Inventario) (fs : FS) (p q : Producto)
    (i1 i2 : List Char) (nc : Option Int) (np : Option ℚ)
    (hdup : buscar_por_id inv.productos p.id = some q)
    (h1 : buscar_por_id inv.productos i1 = none)
    (h2 : buscar_por_id inv.productos i2 = none) :
    anadir_producto inv p fs = (inv, fs, false, .yaExiste p.id) ∧
    eliminar_producto inv i1 fs = (inv, fs, false, .noExisteEliminar i1) ∧
    actualizar_producto inv i2 nc np fs = (inv, fs, false, .noExisteActualizar i2) :=
  ⟨by simp [anadir_producto, hdup], by simp [eliminar_producto, h1],
    by simp [actualizar_producto, h2]⟩

/-- C4 witness at a concrete store. -/
theorem c4_fallos_sin_mutacion_witness :
    buscar_por_id ([⟨['A'], ['B'], 1, 1⟩] : List Producto) ['A'] = some ⟨['A'], ['B'], 1, 1⟩ ∧
    buscar_por_id ([⟨['A'], ['B'], 1, 1⟩] : List Producto) ['Z'] = none ∧
    anadir_producto ⟨[⟨['A'], ['B'], 1, 1⟩], "inv.txt", []⟩ ⟨['A'], ['C'], 2, 2⟩
        ⟨fun _ => none, fun _ => true, true⟩ =
      (⟨[⟨['A'], ['B'], 1, 1⟩], "inv.txt", []⟩, ⟨fun _ => none, fun _ => true, true⟩,
        false, .yaExiste ['A']) :=
  ⟨by decide, by decide,
    (c4_fallos_sin_mutacion ⟨[⟨['A'], ['B'], 1, 1⟩], "inv.txt", []⟩
      ⟨fun _ => none, fun _ => true, true⟩ ⟨['A'], ['C'], 2, 2⟩ ⟨['A'], ['B'], 1, 1⟩
      ['Z'] ['Z'] none none (by decide) (by decide) (by decide)).1⟩

/-- C6: when a write step of `_guardar_todo` fails the previously saved
backing file is left byte-for-byte unchanged (in particular it is not
deleted), the failure is reported with a distinguishing message, and the
temporary file `<ruta>.tmp` is absent afterwards in every outcome. -/
theorem c6_guardar_todo_seguro (ruta : String) (productos : List Producto) (fs : FS) :
    ((guardar_todo ruta productos fs).2.1 = false →
      (guardar_todo ruta productos fs).1.files ruta = fs.files ruta) ∧
    (guardar_todo ruta productos fs).1.files (ruta ++ ".tmp") = none ∧
    ((fs.canWrite (ruta ++ ".tmp") = false ∨ fs.canReplace = false) →
      (guardar_todo ruta productos fs).2.1 = false ∧
      (guardar_todo ruta productos fs).2.2 ≠ MsgGuardar.guardado ruta) := by
  have hne := tmp_ne ruta
  have hne' : ruta ≠ ruta ++ ".tmp" := hne.symm
  by_cases hw : fs.canWrite (ruta ++ ".tmp")
  · by_cases hr : fs.canReplace
    · constructor
      · intro hfalse
        simp [guardar_todo, hw, hr, limpiar_tmp, FS.replaceFile, FS.write, hne] at hfalse
      · constructor
        · simp [guardar_todo, hw, hr, limpiar_tmp, FS.replaceFile, FS.write, FS.remove, hne]
        · intro hfail
          rcases hfail with hfail | hfail
          · rw [hw] at hfail; exact absurd hfail (by simp)
          · rw [hr] at hfail; exact absurd hfail (by simp)
    · have hr' : fs.canReplace = false := by simpa using hr
      refine ⟨?_, ?_, ?_⟩
      · intro _
        simp [guardar_todo, hw, hr', limpiar_tmp, FS.write, FS.remove, hne, hne']
      · simp [guardar_todo, hw, hr', limpiar_tmp, FS.write, FS.remove, hne]
      · intro _
        simp [guardar_todo, hw, hr', limpiar_tmp, FS.write, FS.remove]
  · have hw' : fs.canWrite (ruta ++ ".tmp") = false := by simpa using hw
    by_cases hs : (fs.files (ruta ++ ".tmp")).isSome
    · refine ⟨?_, ?_, ?_⟩
      · intro _
        simp [guardar_todo, hw', limpiar_tmp, hs, FS.remove, hne']
      · simp [guardar_todo, hw', limpiar_tmp, hs, FS.remove]
      · intro _
        simp [guardar_todo, hw', limpiar_tmp, hs, FS.remove]
    · have hs' : fs.files (ruta ++ ".tmp") = none := by
        rcases h : fs.files (ruta ++ ".tmp") with _ | v
        · rfl
        · rw [h] at hs; exact absurd rfl hs
      refine ⟨?_, ?_, ?_⟩
      · intro _
        simp [guardar_todo, hw', limpiar_tmp, hs']
      · simp [guardar_todo, hw', limpiar_tmp, hs']
      · intro _
        simp [guardar_todo, hw', limpiar_tmp, hs']

/-- C6 witness at a concrete path and file system. -/
theorem c6_guardar_todo_seguro_witness :
    ((guardar_todo "inv.txt" [] ⟨fun _ => none, fun _ => false, false⟩).2.1 = false →
      (guardar_todo "inv.txt" [] ⟨fun _ => none, fun _ => false, false⟩).1.files "inv.txt" =
        (⟨fun _ => none, fun _ => false, false⟩ : FS).files "inv.txt") ∧
    (guardar_todo "inv.txt" [] ⟨fun _ => none, fun _ => false, false⟩).1.files
      ("inv.txt" ++ ".tmp") = none ∧
    (((⟨fun _ => none, fun _ => false, false⟩ : FS).canWrite ("inv.txt" ++ ".tmp") = false ∨
        (⟨fun _ => none, fun _ => false, false⟩ : FS).canReplace = false) →
      (guardar_todo "inv.txt" [] ⟨fun _ => none, fun _ => false, false⟩).2.1 = false ∧
      (guardar_todo "inv.txt" [] ⟨fun _ => none, fun _ => false, false⟩).2.2 ≠
        MsgGuardar.guardado "inv.txt") :=
  c6_guardar_todo_seguro "inv.txt" [] ⟨fun _ => none, fun _ => false, false⟩

/-!  ## Uniqueness and non-negativity machinery  -/

theorem buscar_por_id_none {l : List Producto} {i : List Char}
    (h : buscar_por_id l i = none) : i ∉ idsDe l := by
  induction l with
  | nil => simp [idsDe]
  | cons q t ih =>
    by_cases hq : q.id = i
    · simp [buscar_por_id, hq] at h
    · rw [buscar_por_id, if_neg hq] at h
      intro hmem
      rw [idsDe, List.map_cons, List.mem_cons] at hmem
      rcases hmem with h1 | h1
      · exact hq h1.symm
      · exact ih h h1

theorem nodup_append_producto {l : List Producto} {p : Producto}
    (h : NoDupIds l) (hnot : p.id ∉ idsDe l) : NoDupIds (l ++ [p]) := by
  unfold NoDupIds idsDe at h ⊢
  rw [List.map_append]
  rw [List.nodup_append]
  refine ⟨h, List.nodup_singleton _, ?_⟩
  intro a ha hb
  rw [List.map_singleton, List.mem_singleton] at hb
  subst hb
  exact hnot ha

theorem eliminar_por_id_sublist : ∀ (l : List Producto) (i : List Char),
    List.Sublist (eliminar_por_id l i) l
  | [], _ => by simp [eliminar_por_id]
  | p :: t, i => by
    by_cases hp : p.id = i
    · rw [eliminar_por_id, if_pos hp]
      exact List.sublist_cons_self p t
    · rw [eliminar_por_id, if_neg hp]
      exact (eliminar_por_id_sublist t i).cons₂ p

theorem actualizar_en_ids : ∀ (l : List Producto) (i : List Char) (nuevo : Producto),
    nuevo.id = i → idsDe (actualizar_en l i nuevo) = idsDe l
  | [], _, _, _ => rfl
  | p :: t, i, nuevo, hid => by
    by_cases hp : p.id = i
    · rw [actualizar_en, if_pos hp]
      simp [idsDe, hid, hp]
    · rw [actualizar_en, if_neg hp]
      have := actualizar_en_ids t i nuevo hid
      simp only [idsDe, List.map_cons] at this ⊢
      rw [this]

theorem mem_actualizar_en : ∀ {l : List Producto} {i : List Char}
    {nuevo q : Producto}, q ∈ actualizar_en l i nuevo → q = nuevo ∨ q ∈ l := by
  intro l
  induction l with
  | nil => intro i nuevo q h; simp [actualizar_en] at h
  | cons p t ih =>
    intro i nuevo q h
    by_cases hp : p.id = i
    · rw [actualizar_en, if_pos hp] at h
      rcases List.mem_cons.mp h with h1 | h1
      · exact Or.inl h1
      · exact Or.inr (List.mem_cons_of_mem p h1)
    · rw [actualizar_en, if_neg hp] at h
      rcases List.mem_cons.mp h with h1 | h1
      · exact Or.inr (h1 ▸ List.mem_cons_self p t)
      · rcases ih h1 with h2 | h2
        · exact Or.inl h2
        · exact Or.inr (List.mem_cons_of_mem p h2)

theorem actualizar_productos_spec ( inv : Inventario) (i : List Char)
    (nc : Option Int) (np : Option ℚ) (fs : FS) :
    (actualizar_producto inv i nc np fs).1.productos = inv.productos ∨
    ∃ p0 nuevo, buscar_por_id inv.productos i = some p0 ∧
      nuevo.id = p0.id ∧
      (nuevo.cantidad = p0.cantidad ∨ 0 ≤ nuevo.cantidad) ∧
      ( nuevo.precio = p0.precio ∨ 0 ≤ nuevo.precio) ∧
      (actualizar_producto inv i nc np fs).1.productos =
        actualizar_en inv.productos i nuevo := by
  rcases hb : buscar_por_id inv.productos i with _ | p0
  · left
    simp [actualizar_producto, hb]
  · have hcases : ∃ r, (match nc with
        | none => some p0
        | some c => p0.set_cantidad c) = r ∧
        (r = none ∨ ∃ p1 : Producto, r = some p1 ∧ p1.id = p0.id ∧ p1.nombre = p0.nombre ∧
          p1.precio = p0.precio ∧ (p1.cantidad = p0.cantidad ∨ 0 ≤ p1.cantidad)) := by
      rcases nc with _ | c
      · exact ⟨some p0, rfl, Or.inr ⟨p0, rfl, rfl, rfl, rfl, Or.inl rfl⟩⟩
      · by_cases hc : c < 0
        · exact ⟨none, by simp [Producto.set_cantidad, hc], Or.inl rfl⟩
        · refine ⟨some { p0 with cantidad := c }, by simp [Producto.set_cantidad, hc], ?_⟩
          exact Or.inr ⟨_, rfl, rfl, rfl, rfl, Or.inr (not_lt.mp hc)⟩
    rcases hcases with ⟨r, hr, hnone | ⟨p1, hsome, hid1, _, hpre1, hcant1⟩⟩
    · subst hnone
      left
      simp [actualizar_producto, hb, hr]
    · subst hsome
      rcases np with _ | pr
      · right
        refine ⟨p0, p1, rfl, hid1, hcant1, Or.inl hpre1, ?_⟩
        simp [actualizar_producto, hb, hr]
      · by_cases hpr : pr < 0
        · right
          refine ⟨p0, p1, rfl, hid1, hcant1, Or.inl hpre1, ?_⟩
          simp [actualizar_producto, hb, hr, Producto.set_precio, hpr]
        · right
          refine ⟨p0, { p1 with precio := pr }, rfl, hid1, hcant1,
            Or.inr (not_lt.mp hpr), ?_⟩
          simp [actualizar_producto, hb, hr, Producto.set_precio, hpr]

theorem anadir_preserva_nodup { inv : Inventario} {p : Producto} {fs : FS}
    (h : NoDupIds inv.productos) :
    NoDupIds (anadir_producto inv p fs).1.productos := by
  rcases hb : buscar_por_id inv.productos p.id with _ | q
  · simp only [anadir_producto, hb]
    exact nodup_append_producto h (buscar_por_id_none hb)
  · simp only [anadir_producto, hb]
    exact h

theorem eliminar_preserva_nodup { inv : Inventario} {i : List Char} {fs : FS}
    (h : NoDupIds inv.productos) :
    NoDupIds (eliminar_producto inv i fs).1.productos := by
  rcases hb : buscar_por_id inv.productos i with _ | q
  · simp only [eliminar_producto, hb]
    exact h
  · simp only [eliminar_producto, hb]
    exact ((eliminar_por_id_sublist inv.productos i).map Producto.id).nodup h

theorem actualizar_preserva_nodup { inv : Inventario} {i : List Char}
    {nc : Option Int} {np : Option ℚ} {fs : FS} (h : NoDupIds inv.productos) :
    NoDupIds (actualizar_producto inv i nc np fs).1.productos := by
  rcases actualizar_productos_spec inv i nc np fs with heq | ⟨p0, nuevo, hb, hid, _, _, heq⟩
  · rw [heq]; exact h
  · rw [heq]
    unfold NoDupIds
    rw [actualizar_en_ids _ _ _ (by rw [hid]; exact (buscar_por_id_some hb).1)]
    exact h

theorem pasoOp_preserva_nodup {s : Inventario × FS} (op : Op)
    (h : NoDupIds s.1.productos) : NoDupIds (pasoOp s op).1.productos := by
  rcases op with p | i | ⟨i, nc, np⟩
  · exact anadir_preserva_nodup h
  · exact eliminar_preserva_nodup h
  · exact actualizar_preserva_nodup h

theorem ejecutar_preserva_nodup : ∀ (ops : List Op) (s : Inventario × FS),
    NoDupIds s.1.productos → NoDupIds (ejecutar s ops).1.productos
  | [], _, h => h
  | op :: ops, s, h =>
    ejecutar_preserva_nodup ops (pasoOp s op) (pasoOp_preserva_nodup op h)

theorem cargarPaso_nodup {n : Nat} {acc : List Producto} {avisos : List Aviso}
    {linea : List Char} (h : NoDupIds acc) :
    NoDupIds (cargarPaso n acc avisos linea).1 := by
  simp only [cargarPaso]
  split
  · exact h
  · split
    · split
      · exact h
      · rename_i prod heq hd
        refine nodup_append_producto h (buscar_por_id_none ?_)
        rcases hv : buscar_por_id acc prod.id with _ | q
        · rfl
        · rw [hv] at hd
          simp at hd
    · exact h

theorem cargar_preserva_nodup : ∀ (lineas : List (List Char)) (n : Nat)
    (acc : List Producto) (avisos : List Aviso), NoDupIds acc →
    NoDupIds (cargarAux n acc avisos lineas).1
  | [], _, _, _, h => h
  | _ :: resto, _, _, _, h =>
    cargar_preserva_nodup resto _ _ _ (cargarPaso_nodup h)

theorem anadir_preserva_noneg { inv : Inventario} {p : Producto} {fs : FS}
    (h : NoNeg inv.productos) (hp : 0 ≤ p.cantidad ∧ 0 ≤ p.precio) :
    NoNeg (anadir_producto inv p fs).1.productos := by
  rcases hb : buscar_por_id inv.productos p.id with _ | q
  · simp only [anadir_producto, hb]
    intro r hr
    rcases List.mem_append.mp hr with h1 | h1
    · exact h r h1
    · rw [List.mem_singleton] at h1
      exact h1 ▸ hp
  · simp only [anadir_producto, hb]
    exact h

theorem eliminar_preserva_noneg { inv : Inventario} {i : List Char} {fs : FS}
    (h : NoNeg inv.productos) :
    NoNeg (eliminar_producto inv i fs).1.productos := by
  rcases hb : buscar_por_id inv.productos i with _ | q
  · simp only [eliminar_producto, hb]
    exact h
  · simp only [eliminar_producto, hb]
    intro r hr
    exact h r ((eliminar_por_id_sublist inv.productos i).mem hr)

theorem actualizar_preserva_noneg { inv : Inventario} {i : List Char}
    {nc : Option Int} {np : Option ℚ} {fs : FS} (h : NoNeg inv.productos) :
    NoNeg (actualizar_producto inv i nc np fs).1.productos := by
  rcases actualizar_productos_spec inv i nc np fs with heq |
    ⟨p0, nuevo, hb, _, hcant, hprec, heq⟩
  · rw [heq]; exact h
  · rw [heq]
    intro q hq
    rcases mem_actualizar_en hq with rfl | hq'
    · have hp0 := h p0 (buscar_por_id_some hb).2
      constructor
      · rcases hcant with h1 | h1
        · rw [h1]; exact hp0.1
        · exact h1
      · rcases hprec with h1 | h1
        · rw [h1]; exact hp0.2
        · exact h1
    · exact h q hq'

theorem pasoOp_preserva_noneg {s : Inventario × FS} {op : Op}
    (h : NoNeg s.1.productos) (hop : opNoNeg op = true) :
    NoNeg (pasoOp s op).1.productos := by
  rcases op with p | i | ⟨i, nc, np⟩
  · simp only [opNoNeg, Bool.and_eq_true, decide_eq_true_eq] at hop
    exact anadir_preserva_noneg h hop
  · exact eliminar_preserva_noneg h
  · exact actualizar_preserva_noneg h

theorem ejecutar_preserva_noneg : ∀ (ops : List Op) (s : Inventario × FS),
    NoNeg s.1.productos → (∀ op ∈ ops, opNoNeg op = true) →
    NoNeg (ejecutar s ops).1.productos
  | [], _, h, _ => h
  | op :: ops, s, h, hops =>
    ejecutar_preserva_noneg ops (pasoOp s op)
      (pasoOp_preserva_noneg h (hops op (List.mem_cons_self op ops)))
      (fun o ho => hops o (List.mem_cons_of_mem op ho))

/-!  ## Claim theorems (second group)  -/

/-- C1: starting from a freshly constructed store (arbitrary file contents,
where the first occurrence of a duplicate id wins during load) and applying
any sequence of `anadir_producto` / `eliminar_producto` /
`actualizar_producto` calls, the in-memory sequence never holds two records
with the same id. -/
theorem c1_ids_unicos (ruta : String) (lineas : List (List Char)) (fs : FS)
    (ops : List Op) :
    NoDupIds (ejecutar (inventarioDesdeLineas ruta lineas, fs) ops).1.productos := by
  have h0 : NoDupIds (inventarioDesdeLineas ruta lineas, fs).1.productos := by
    show NoDupIds (cargarLineas lineas).1
    exact cargar_preserva_nodup lineas 1 [] [] (by simp [NoDupIds, idsDe])
  exact ejecutar_preserva_nodup ops _ h0

/-- C2 counterexample: neither the `Producto` constructor nor
`anadir_producto` validates, so one add of a record built with a negative
quantity leaves a negative quantity in the store — the claimed invariant is
false for the code as written. -/
theorem c2_contraejemplo :
    ∃ p ∈ (anadir_producto ⟨[], "inventario.txt", []⟩ ⟨['A'], ['B'], -5, 1⟩
        ⟨fun _ => none, fun _ => true, true⟩).1.productos, p.cantidad < 0 := by
  decide

/-- C2 (amended): the setters used by `actualizar_producto` do reject
negative values, so non-negativity of every record is preserved by every
public operation; but it must be assumed of the initial (loaded) records
and of every record handed to `anadir_producto`, because construction,
load and add themselves perform no validation. -/
theorem c2_no_negativos_enmendado ( inv0 : Inventario) (fs : FS) (ops : List Op)
    (h0 : NoNeg inv0.productos) (hops : ∀ op ∈ ops, opNoNeg op = true) :
    NoNeg (ejecutar (inv0, fs) ops).1.productos :=
  ejecutar_preserva_noneg ops (inv0, fs) h0 hops

/-- C2 (amended) witness at a concrete store and operation list. -/
theorem c2_no_negativos_enmendado_witness :
    NoNeg (⟨[⟨['A'], ['B'], 1, 1⟩], "inv.txt", []⟩ : Inventario).productos ∧
    (∀ op ∈ [Op.anadir ⟨['C'], ['D'], 2, 2⟩, Op.actualizar ['A'] (some 3) none],
      opNoNeg op = true) ∧
    NoNeg (ejecutar (⟨[⟨['A'], ['B'], 1, 1⟩], "inv.txt", []⟩,
        ⟨fun _ => none, fun _ => true, true⟩)
      [Op.anadir ⟨['C'], ['D'], 2, 2⟩, Op.actualizar ['A'] (some 3) none]).1.productos :=
  ⟨by decide, by decide,
    c2_no_negativos_enmendado ⟨[⟨['A'], ['B'], 1, 1⟩], "inv.txt", []⟩
      ⟨fun _ => none, fun _ => true, true⟩
      [Op.anadir ⟨['C'], ['D'], 2, 2⟩, Op.actualizar ['A'] (some 3) none]
      (by decide) (by decide)⟩

/-- C9 counterexample: `listar_productos` is `return self._productos` — the
store's own list object.  Appending a record whose id already exists
through the returned reference leaves the store's sequence with two records
of the same id, so the returned value does allow breaking the uniqueness
invariant. -/
theorem c9_contraejemplo :
    ¬ NoDupIds (leerRef
      (appendRef ⟨[[⟨['A'], ['B'], 1, 1⟩]], 0⟩
        (listarRef ⟨[[⟨['A'], ['B'], 1, 1⟩]], 0⟩) ⟨['A'], ['C'], 2, 2⟩)
      (⟨[[⟨['A'], ['B'], 1, 1⟩]], 0⟩ : EstadoPy).refProductos) := by
  decide

/-- C9 (amended): `listar_productos` does return the full in-memory sequence
in store order, but it is the live internal list: a caller's append through
the returned reference directly mutates the store's own sequence (hence can
break id-uniqueness, as the counterexample shows). -/
theorem c9_vista_viva ( st : EstadoPy) (p : Producto)
    (hr : st.refProductos < st.heap.length) :
    (∀ inv : Inventario, listar_productos inv = inv.productos) ∧
    leerRef st (listarRef st) = leerRef st st.refProductos ∧
    leerRef (appendRef st (listarRef st) p) st.refProductos =
      leerRef st st.refProductos ++ [p] := by
  refine ⟨fun _ => rfl, rfl, ?_⟩
  simp [leerRef, appendRef, listarRef, List.getD_eq_getElem?_getD,
    List.getElem?_set_self hr]

/-- C9 (amended) witness at a concrete heap state. -/
theorem c9_vista_viva_witness :
    (⟨[[⟨['A'], ['B'], 1, 1⟩]], 0⟩ : EstadoPy).refProductos <
      (⟨[[⟨['A'], ['B'], 1, 1⟩]], 0⟩ : EstadoPy).heap.length ∧
    leerRef (appendRef ⟨[[⟨['A'], ['B'], 1, 1⟩]], 0⟩
        (listarRef ⟨[[⟨['A'], ['B'], 1, 1⟩]], 0⟩) ⟨['A'], ['C'], 2, 2⟩)
      (⟨[[⟨['A'], ['B'], 1, 1⟩]], 0⟩ : EstadoPy).refProductos =
      leerRef ⟨[[⟨['A'], ['B'], 1, 1⟩]], 0⟩
        (⟨[[⟨['A'], ['B'], 1, 1⟩]], 0⟩ : EstadoPy).refProductos ++ [⟨['A'], ['C'], 2, 2⟩] :=
  ⟨by decide,
    (c9_vista_viva ⟨[[⟨['A'], ['B'], 1, 1⟩]], 0⟩ ⟨['A'], ['C'], 2, 2⟩ (by decide)).2.2⟩

/-!  ## Decomposition lemmas for the load loop  -/

theorem cargarPaso_avisos_acc (n : Nat) (acc : List Producto) (avisos : List Aviso)
    (linea : List Char) :
    cargarPaso n acc avisos linea =
      ((cargarPaso n acc [] linea).1, avisos ++ (cargarPaso n acc [] linea).2) := by
  unfold cargarPaso
  by_cases hb : (stripL linea).isEmpty
  · simp [hb]
  · rw [if_neg hb, if_neg hb]
    rcases hp : linea_a_producto (stripL linea) with e | prod
    · simp
    · rcases hd : buscar_por_id acc prod.id with _ | q
      · simp [hd]
      · simp [hd]

theorem cargarPaso_avisos_rango (n : Nat) (acc : List Producto)
    (linea : List Char) (a : Aviso) (ha : a ∈ (cargarPaso n acc [] linea).2) :
    a.numeroLinea = n := by
  simp only [cargarPaso] at ha
  split at ha
  · simp at ha
  · split at ha
    · split at ha
      · simp at ha
        subst ha
        rfl
      · simp at ha
    · simp at ha
      subst ha
      rfl

theorem cargarPaso_products_mono (n : Nat) (acc : List Producto)
    (avisos : List Aviso) (linea : List Char) :
    ∃ resto, (cargarPaso n acc avisos linea).1 = acc ++ resto := by
  unfold cargarPaso
  by_cases hb : (stripL linea).isEmpty
  · exact ⟨[], by simp [hb]⟩
  · rw [if_neg hb]
    rcases hp : linea_a_producto (stripL linea) with e | prod
    · exact ⟨[], by simp⟩
    · rcases hd : buscar_por_id acc prod.id with _ | q
      · exact ⟨[prod], by simp [hd]⟩
      · exact ⟨[], by simp [hd]⟩

theorem cargarPaso_products_n (n m : Nat) (acc : List Producto)
    (avisos avisos' : List Aviso) (linea : List Char) :
    (cargarPaso n acc avisos linea).1 = (cargarPaso m acc avisos' linea).1 := by
  unfold cargarPaso
  by_cases hb : (stripL linea).isEmpty
  · simp [hb]
  · rw [if_neg hb, if_neg hb]
    rcases hp : linea_a_producto (stripL linea) with e | prod
    · simp
    · rcases hd : buscar_por_id acc prod.id with _ | q
      · simp [hd]
      · simp [hd]

theorem cargarAux_append : ∀ (xs ys : List (List Char)) (n : Nat)
    (acc : List Producto) (avisos : List Aviso),
    cargarAux n acc avisos (xs ++ ys) =
      cargarAux (n + xs.length) (cargarAux n acc avisos xs).1
        (cargarAux n acc avisos xs).2 ys
  | [], ys, n, acc, avisos => by simp [cargarAux]
  | linea :: xs, ys, n, acc, avisos => by
    rw [List.cons_append]
    rw [cargarAux, cargarAux]
    rw [cargarAux_append xs ys (n + 1) (cargarPaso n acc avisos linea).1
      (cargarPaso n acc avisos linea).2]
    have harith : n + 1 + xs.length = n + (linea :: xs).length := by
      simp [List.length_cons]
      omega
    rw [harith]

theorem cargarAux_avisos_acc : ∀ (lineas : List (List Char)) (n : Nat)
    (acc : List Producto) (avisos : List Aviso),
    cargarAux n acc avisos lineas =
      ((cargarAux n acc [] lineas).1, avisos ++ (cargarAux n acc [] lineas).2)
  | [], n, acc, avisos => by simp [cargarAux]
  | linea :: xs, n, acc, avisos => by
    rw [cargarAux, cargarAux]
    rw [cargarPaso_avisos_acc n acc avisos linea]
    simp only []
    rw [cargarAux_avisos_acc xs (n + 1) (cargarPaso n acc [] linea).1
      (avisos ++ (cargarPaso n acc [] linea).2)]
    rw [cargarAux_avisos_acc xs (n + 1) (cargarPaso n acc [] linea).1
      (cargarPaso n acc [] linea).2]
    simp

theorem cargarAux_avisos_rango : ∀ (lineas : List (List Char)) (n : Nat)
    (acc : List Producto) (a : Aviso),
    a ∈ (cargarAux n acc [] lineas).2 →
    n ≤ a.numeroLinea ∧ a.numeroLinea < n + lineas.length
  | [], n, acc, a => by simp [cargarAux]
  | linea :: xs, n, acc, a => by
    intro ha
    rw [cargarAux] at ha
    rw [cargarAux_avisos_acc xs (n + 1) (cargarPaso n acc [] linea).1
      (cargarPaso n acc [] linea).2] at ha
    simp only [List.mem_append] at ha
    simp only [List.length_cons]
    rcases ha with h1 | h1
    · have := cargarPaso_avisos_rango n acc linea a h1
      omega
    · have := cargarAux_avisos_rango xs (n + 1) (cargarPaso n acc [] linea).1 a h1
      omega

theorem cargarAux_products_mono : ∀ (lineas : List (List Char)) (n : Nat)
    (acc : List Producto) (avisos : List Aviso),
    ∃ resto, (cargarAux n acc avisos lineas).1 = acc ++ resto
  | [], n, acc, avisos => ⟨[], by simp [cargarAux]⟩
  | linea :: xs, n, acc, avisos => by
    rw [cargarAux]
    rcases cargarPaso_products_mono n acc avisos linea with ⟨r1, hr1⟩
    rcases cargarAux_products_mono xs (n + 1) (cargarPaso n acc avisos linea).1
      (cargarPaso n acc avisos linea).2 with ⟨r2, hr2⟩
    exact ⟨r1 ++ r2, by rw [hr2, hr1, List.append_assoc]⟩

theorem cargarAux_products_n : ∀ (lineas : List (List Char)) (n m : Nat)
    (acc : List Producto) (avisos avisos' : List Aviso),
    (cargarAux n acc avisos lineas).1 = (cargarAux m acc avisos' lineas).1
  | [], _, _, _, _, _ => rfl
  | linea :: xs, n, m, acc, avisos, avisos' => by
    rw [cargarAux, cargarAux]
    rw [cargarPaso_products_n n m acc avisos avisos' linea]
    rw [cargarAux_avisos_acc xs (n + 1) (cargarPaso m acc avisos' linea).1
      (cargarPaso n acc avisos linea).2]
    rw [cargarAux_avisos_acc xs (m + 1) (cargarPaso m acc avisos' linea).1
      (cargarPaso m acc avisos' linea).2]
    simp only []
    exact cargarAux_products_n xs (n + 1) (m + 1) (cargarPaso m acc avisos' linea).1 [] []

/-!  ## Claim theorems (load behaviour)  -/

/-- C10: a line that is empty or consists only of whitespace is skipped
silently during load: it yields no record and, unlike malformed lines, it
contributes no warning (no warning in the result carries its line number). -/
theorem c10_lineas_en_blanco (pre post : List (List Char)) (l : List Char)
    (hblank : (stripL l).isEmpty = true) :
    (cargarLineas (pre ++ l :: post)).1 = (cargarLineas (pre ++ post)).1 ∧
    ∀ a ∈ (cargarLineas (pre ++ l :: post)).2, a.numeroLinea ≠ pre.length + 1 := by
  have hcomm : 1 + pre.length = pre.length + 1 := Nat.add_comm 1 pre.length
  have hpaso : ∀ acc avisos, cargarPaso (pre.length + 1) acc avisos l = (acc, avisos) := by
    intro acc avisos
    simp [cargarPaso, hblank]
  unfold cargarLineas
  rw [cargarAux_append pre (l :: post) 1 [] [], cargarAux_append pre post 1 [] [], hcomm]
  constructor
  · rw [cargarAux, hpaso]
    exact cargarAux_products_n post _ _ _ _ _
  · intro a ha
    rw [cargarAux, hpaso] at ha
    rw [cargarAux_avisos_acc post (pre.length + 1 + 1) (cargarAux 1 [] [] pre).1
      (cargarAux 1 [] [] pre).2] at ha
    simp only [List.mem_append] at ha
    rcases ha with h1 | h1
    · have := cargarAux_avisos_rango pre 1 [] a h1
      omega
    · have := cargarAux_avisos_rango post (pre.length + 1 + 1) (cargarAux 1 [] [] pre).1 a h1
      omega

/-- C10 witness at a concrete file. -/
theorem c10_lineas_en_blanco_witness :
    (stripL [' ', '\t']).isEmpty = true ∧
    (cargarLineas ([['A', '|', 'B', '|', '1', '|', '2', '.', '0']] ++ [' ', '\t'] ::
        [['C', '|', 'D', '|', '3', '|', '4', '.', '0']])).1 =
      (cargarLineas ([['A', '|', 'B', '|', '1', '|', '2', '.', '0']] ++
        [['C', '|', 'D', '|', '3', '|', '4', '.', '0']])).1 :=
  ⟨by decide,
    (c10_lineas_en_blanco [['A', '|', 'B', '|', '1', '|', '2', '.', '0']]
      [['C', '|', 'D', '|', '3', '|', '4', '.', '0']] [' ', '\t'] (by decide)).1⟩

/-- C7: a non-blank line rejected by `_linea_a_producto` (wrong field
count, unparsable quantity or price, or empty id/name) is skipped — the
loaded records are those of the same file without it — and contributes
exactly one warning, which carries its 1-based line number and the reason;
a valid line with a fresh id still loads whatever the surrounding lines
are; the loop never aborts (`cargarLineas` is total by construction). -/
theorem c7_lineas_corruptas (pre post : List (List Char)) (l : List Char)
    (hnb : (stripL l).isEmpty = false) :
    (∀ e, linea_a_producto (stripL l) = .error e →
      (cargarLineas (pre ++ l :: post)).2.filter
          (fun a => a.numeroLinea = pre.length + 1) =
        [.corrupta (pre.length + 1) e] ∧
      (cargarLineas (pre ++ l :: post)).1 = (cargarLineas (pre ++ post)).1) ∧
    (∀ p, linea_a_producto (stripL l) = .ok p →
      buscar_por_id (cargarLineas pre).1 p.id = none →
      p ∈ (cargarLineas (pre ++ l :: post)).1) := by
  have hcomm : 1 + pre.length = pre.length + 1 := Nat.add_comm 1 pre.length
  constructor
  · intro e he
    have hpaso : ∀ acc avisos, cargarPaso (pre.length + 1) acc avisos l =
        (acc, avisos ++ [.corrupta (pre.length + 1) e]) := by
      intro acc avisos
      simp [cargarPaso, hnb, he]
    unfold cargarLineas
    rw [cargarAux_append pre (l :: post) 1 [] [], cargarAux_append pre post 1 [] [], hcomm]
    constructor
    · rw [cargarAux, hpaso]
      dsimp only
      rw [cargarAux_avisos_acc post (pre.length + 1 + 1) (cargarAux 1 [] [] pre).1
        ((cargarAux 1 [] [] pre).2 ++ [Aviso.corrupta (pre.length + 1) e])]
      dsimp only
      simp only [List.filter_append]
      have hA : (cargarAux 1 [] [] pre).2.filter
          (fun a => a.numeroLinea = pre.length + 1) = [] := by
        rw [List.filter_eq_nil_iff]
        intro a haA
        have := cargarAux_avisos_rango pre 1 [] a haA
        simp only [decide_eq_true_eq]
        omega
      have hW : ((cargarAux (pre.length + 1 + 1) (cargarAux 1 [] [] pre).1 [] post).2).filter
          (fun a => a.numeroLinea = pre.length + 1) = [] := by
        rw [List.filter_eq_nil_iff]
        intro a haW
        have := cargarAux_avisos_rango post (pre.length + 1 + 1) (cargarAux 1 [] [] pre).1 a haW
        simp only [decide_eq_true_eq]
        omega
      rw [hA, hW]
      simp [Aviso.numeroLinea]
    · rw [cargarAux, hpaso]
      exact cargarAux_products_n post _ _ _ _ _
  · intro p hp hfresh
    unfold cargarLineas at hfresh ⊢
    have hpaso : ∀ avisos, cargarPaso (pre.length + 1) (cargarAux 1 [] [] pre).1 avisos l =
        ((cargarAux 1 [] [] pre).1 ++ [p], avisos) := by
      intro avisos
      simp [cargarPaso, hnb, hp, hfresh]
    rw [cargarAux_append pre (l :: post) 1 [] [], hcomm]
    rw [cargarAux, hpaso]
    dsimp only
    rcases cargarAux_products_mono post (pre.length + 1 + 1)
      ((cargarAux 1 [] [] pre).1 ++ [p]) (cargarAux 1 [] [] pre).2 with ⟨r, hr⟩
    rw [hr]
    simp

/-- C7 witness at a concrete file: line 2 has only two fields. -/
theorem c7_lineas_corruptas_witness :
    (stripL ['X', '|', 'Y']).isEmpty = false ∧
    linea_a_producto (stripL ['X', '|', 'Y']) = .error .formato ∧
    (cargarLineas ([['A', '|', 'B', '|', '1', '|', '2', '.', '0']] ++ ['X', '|', 'Y'] ::
        [['C', '|', 'D', '|', '3', '|', '4', '.', '0']])).2.filter
        (fun a => a.numeroLinea = 2) = [.corrupta 2 .formato] :=
  ⟨by decide, by decide,
    ((c7_lineas_corruptas [['A', '|', 'B', '|', '1', '|', '2', '.', '0']]
      [['C', '|', 'D', '|', '3', '|', '4', '.', '0']] ['X', '|', 'Y'] (by decide)).1
      ParseErr.formato (by decide)).1⟩

/-!  ## Digit and numeral lemmas  -/

theorem digitVal_digitToChar {d : Nat} (h : d < 10) : digitVal (digitToChar d) = d := by
  interval_cases d <;> decide

theorem isDigitC_digitToChar {d : Nat} (h : d < 10) : isDigitC (digitToChar d) = true := by
  interval_cases d <;> decide

theorem isDigitC_props {c : Char} (h : isDigitC c = true) :
    pyIsSpace c = false ∧ c ≠ '|' ∧ c ≠ '\n' ∧ c ≠ '.' ∧ c ≠ '-' ∧ c ≠ '+' := by
  refine ⟨?_, ?_, ?_, ?_, ?_, ?_⟩
  · rcases hs : pyIsSpace c with _ | _
    · rfl
    · exfalso
      simp only [pyIsSpace, Bool.or_eq_true, decide_eq_true_eq] at hs
      rcases hs with ((((rfl | rfl) | rfl) | rfl) | rfl) | rfl <;> exact absurd h (by decide)
  · intro hc; subst hc; exact absurd h (by decide)
  · intro hc; subst hc; exact absurd h (by decide)
  · intro hc; subst hc; exact absurd h (by decide)
  · intro hc; subst hc; exact absurd h (by decide)
  · intro hc; subst hc; exact absurd h (by decide)

theorem natDigitsAux_eq : ∀ (fuel n : Nat) (acc : List Char), 0 < n → n < fuel →
    natDigitsAux fuel n acc = ((Nat.digits 10 n).reverse.map digitToChar) ++ acc := by
  intro fuel
  induction fuel with
  | zero => intro n acc h1 h2; omega
  | succ fuel ih =>
    intro n acc hpos hlt
    rw [natDigitsAux]
    by_cases h10 : n < 10
    · rw [if_pos h10]
      rw [Nat.digits_def' (by norm_num : (1:ℕ) < 10) hpos]
      rw [Nat.div_eq_of_lt h10, Nat.digits_zero, Nat.mod_eq_of_lt h10]
      simp
    · rw [if_neg h10]
      have hp2 : 0 < n / 10 := Nat.div_pos (by omega) (by norm_num)
      have hl2 : n / 10 < fuel := by
        have := Nat.div_lt_self hpos (by norm_num : 1 < 10)
        omega
      rw [ih (n / 10) (digitToChar (n % 10) :: acc) hp2 hl2]
      rw [Nat.digits_def' (by norm_num : (1:ℕ) < 10) hpos]
      simp

theorem natRepr_eq {n : Nat} (h : 0 < n) :
    natRepr n = (Nat.digits 10 n).reverse.map digitToChar := by
  rw [natRepr, natDigitsAux_eq (n + 1) n [] h (by omega)]
  simp

theorem natRepr_zero : natRepr 0 = ['0'] := by decide

theorem natRepr_ne_nil (n : Nat) : natRepr n ≠ [] := by
  rcases Nat.eq_zero_or_pos n with rfl | h
  · decide
  · rw [natRepr_eq h]
    intro hnil
    rw [List.map_eq_nil_iff, List.reverse_eq_nil_iff] at hnil
    exact (Nat.digits_ne_nil_iff_ne_zero.mpr h.ne') hnil

theorem mem_natRepr_isDigit {n : Nat} {c : Char} (hc : c ∈ natRepr n) :
    isDigitC c = true := by
  rcases Nat.eq_zero_or_pos n with rfl | h
  · rw [natRepr_zero, List.mem_singleton] at hc
    subst hc
    decide
  · rw [natRepr_eq h, List.mem_map] at hc
    rcases hc with ⟨d, hd, rfl⟩
    rw [List.mem_reverse] at hd
    exact isDigitC_digitToChar (Nat.digits_lt_base (by norm_num) hd)

theorem foldl_digits (L : List Nat) (hL : ∀ d ∈ L, d < 10) : ∀ (a : Nat),
    ((L.reverse.map digitToChar).foldl (fun a c => a * 10 + digitVal c) a) =
      a * 10 ^ L.length + Nat.ofDigits 10 L := by
  induction L with
  | nil => intro a; simp
  | cons d t ih =>
    intro a
    rw [List.reverse_cons, List.map_append, List.foldl_append]
    rw [ih (fun x hx => hL x (List.mem_cons_of_mem d hx)) a]
    simp only [List.map_cons, List.map_nil, List.foldl_cons, List.foldl_nil]
    rw [digitVal_digitToChar (hL d (List.mem_cons_self d t))]
    rw [Nat.ofDigits_cons]
    simp only [List.length_cons, pow_succ]
    ring

theorem digitsVal_natRepr (n : Nat) : digitsVal (natRepr n) = n := by
  rcases Nat.eq_zero_or_pos n with rfl | h
  · decide
  · rw [natRepr_eq h]
    unfold digitsVal
    rw [foldl_digits (Nat.digits 10 n) (fun d hd => Nat.digits_lt_base (by norm_num) hd) 0]
    simp [Nat.ofDigits_digits]

theorem parseNat_natRepr (n : Nat) : parseNat (natRepr n) = some n := by
  have h1 : (natRepr n).isEmpty = false := by
    rw [List.isEmpty_eq_false]
    exact natRepr_ne_nil n
  have h2 : (natRepr n).all isDigitC = true := by
    rw [List.all_eq_true]
    intro c hc
    exact mem_natRepr_isDigit hc
  simp [parseNat, h1, h2, digitsVal_natRepr]

theorem natRepr_head_digit (n : Nat) :
    ∃ c, (natRepr n).head? = some c ∧ isDigitC c = true := by
  rcases hrep : natRepr n with _ | ⟨c, t⟩
  · exact absurd hrep (natRepr_ne_nil n)
  · refine ⟨c, rfl, ?_⟩
    have : c ∈ natRepr n := by
      rw [hrep]
      exact List.mem_cons_self c t
    exact mem_natRepr_isDigit this

theorem parseInt_intRepr (i : Int) : parseInt (intRepr i) = some i := by
  by_cases hi : i < 0
  · rw [intRepr, if_pos hi, parseInt]
    simp only [List.head?_cons, List.tail_cons, if_pos rfl]
    rw [parseNat_natRepr]
    show some (-(((-i).toNat : Nat) : Int)) = some i
    congr 1
    omega
  · push_neg at hi
    rw [intRepr, if_neg (not_lt.mpr hi)]
    rcases natRepr_head_digit i.toNat with ⟨c, hhead, hdig⟩
    have hprops := isDigitC_props hdig
    rw [parseInt]
    rw [if_neg (by rw [hhead]; simp [hprops.2.2.2.2.1])]
    rw [if_neg (by rw [hhead]; simp [hprops.2.2.2.2.2])]
    rw [parseNat_natRepr]
    show some ((i.toNat : Nat) : Int) = some i
    congr 1
    omega

/-!  ## Parsing a serialized decimal  -/

theorem takeWhile_append_not {p : Char → Bool} : ∀ (xs ys : List Char),
    (∀ c ∈ xs, p c = true) → (∀ c, ys.head? = some c → p c = false) →
    (xs ++ ys).takeWhile p = xs ∧ (xs ++ ys).dropWhile p = ys
  | [], ys, _, hy => by
    cases ys with
    | nil => exact ⟨rfl, rfl⟩
    | cons c t =>
      have := hy c rfl
      simp [List.takeWhile_cons, List.dropWhile_cons, this]
  | c :: xs, ys, hx, hy => by
    have hc := hx c (List.mem_cons_self c xs)
    have ih := takeWhile_append_not xs ys (fun d hd => hx d (List.mem_cons_of_mem c hd)) hy
    simp [List.takeWhile_cons, List.dropWhile_cons, hc, ih.1, ih.2]

theorem natRepr_length_le {frac k : Nat} (hk : 0 < k) (hf : frac < 10 ^ k) :
    (natRepr frac).length ≤ k := by
  rcases Nat.eq_zero_or_pos frac with rfl | h
  · rw [natRepr_zero]
    simpa using hk
  · rw [natRepr_eq h, List.length_map, List.length_reverse]
    by_contra hlen
    push_neg at hlen
    have h1 : 10 ^ (Nat.digits 10 frac).length ≤ 10 * frac :=
      Nat.base_pow_length_digits_le 10 frac (by norm_num) h.ne'
    have h2 : 10 ^ (k + 1) ≤ 10 ^ (Nat.digits 10 frac).length :=
      Nat.pow_le_pow_right (by norm_num) hlen
    have h3 : 10 ^ (k + 1) = 10 * 10 ^ k := by ring
    omega

theorem padDigits_all_digits {k frac : Nat} {c : Char} (hc : c ∈ padDigits k frac) :
    isDigitC c = true := by
  unfold padDigits at hc
  by_cases hk : k = 0
  · rw [if_pos hk, List.mem_singleton] at hc
    subst hc
    decide
  · rw [if_neg hk] at hc
    rcases List.mem_append.mp hc with h1 | h1
    · rw [List.mem_replicate] at h1
      rw [h1.2]
      decide
    · exact mem_natRepr_isDigit h1

theorem padDigits_ne_nil (k frac : Nat) : padDigits k frac ≠ [] := by
  unfold padDigits
  by_cases hk : k = 0
  · rw [if_pos hk]
    simp
  · rw [if_neg hk]
    simp [natRepr_ne_nil frac]

theorem padDigits_length {k frac : Nat} (hk : k ≠ 0) (hf : frac < 10 ^ k) :
    (padDigits k frac).length = k := by
  unfold padDigits
  rw [if_neg hk, List.length_append, List.length_replicate]
  have := natRepr_length_le (Nat.pos_of_ne_zero hk) hf
  omega

theorem foldl_replicate_zero : ∀ (z : Nat) (a : Nat), a = 0 →
    List.foldl (fun a c => a * 10 + digitVal c) a (List.replicate z '0') = 0
  | 0, a, ha => ha
  | z + 1, a, ha => by
    rw [List.replicate_succ, List.foldl_cons]
    refine foldl_replicate_zero z _ ?_
    subst ha
    decide

theorem digitsVal_padDigits (k frac : Nat) (h0 : k = 0 → frac = 0) :
    digitsVal (padDigits k frac) = frac := by
  unfold padDigits
  by_cases hk : k = 0
  · rw [if_pos hk, h0 hk]
    decide
  · rw [if_neg hk]
    unfold digitsVal
    rw [List.foldl_append, foldl_replicate_zero _ 0 rfl]
    exact digitsVal_natRepr frac

theorem parseFloat_decimal (neg : Prop) [Decidable neg] (ds fs : List Char)
    (hds : ds ≠ []) (hds_dig : ∀ c ∈ ds, isDigitC c = true)
    (hfs_dig : ∀ c ∈ fs, isDigitC c = true) (hfs_ne : fs ≠ []) :
    parseFloat ((if neg then ['-'] else []) ++ ds ++ '.' :: fs) =
      some (mkRat ((if neg then (-1 : Int) else 1) *
        ((digitsVal ds * 10 ^ fs.length + digitsVal fs : Nat) : Int)) (10 ^ fs.length)) := by
  rcases ds with _ | ⟨d, ds'⟩
  · exact absurd rfl hds
  have hd_dig := hds_dig d (List.mem_cons_self d ds')
  have hd_props := isDigitC_props hd_dig
  have hsplit := takeWhile_append_not (d :: ds') ('.' :: fs) hds_dig
    (fun c hc => by
      rw [List.head?_cons] at hc
      injection hc with hc
      subst hc
      decide)
  have hfs_split := takeWhile_append_not fs [] hfs_dig (fun c hc => by simp at hc)
  rw [List.append_nil] at hfs_split
  have hds_ne_empty : (d :: ds').isEmpty = false := rfl
  by_cases hneg : neg
  · rw [if_pos hneg, if_pos hneg]
    unfold parseFloat
    simp only [List.cons_append] at hsplit
    simp [hsplit.1, hsplit.2, hfs_split.1, hfs_split.2,
      List.isEmpty_eq_false.mpr hfs_ne]
  · rw [if_neg hneg, if_neg hneg]
    unfold parseFloat
    have h1 : ¬(some d = some ('-' : Char)) := by
      intro h
      injection h with h
      exact hd_props.2.2.2.2.1 h
    have h2 : ¬(some d = some ('+' : Char)) := by
      intro h
      injection h with h
      exact hd_props.2.2.2.2.2 h
    simp only [List.cons_append] at hsplit
    simp [h1, h2, hsplit.1, hsplit.2, hfs_split.1, hfs_split.2,
      List.isEmpty_eq_false.mpr hfs_ne]

theorem rat_num_eq_mul_den (q : ℚ) : (q.num : ℚ) = q * (q.den : ℚ) := by
  have hd : (q.den : ℚ) ≠ 0 := by
    exact_mod_cast q.den_nz
  exact (div_eq_iff hd).mp (Rat.num_div_den q)

theorem mkRat_sgn_abs {q : ℚ} {k : Nat} (hdvd10 : q.den ∣ 10 ^ k) :
    mkRat ((if q.num < 0 then (-1 : Int) else 1) *
      ((q.num.natAbs * 10 ^ k / q.den : Nat) : Int)) (10 ^ k) = q := by
  obtain ⟨m, hm⟩ : ∃ m, q.num.natAbs * 10 ^ k / q.den = m := ⟨_, rfl⟩
  rw [hm]
  have hmden : m * q.den = q.num.natAbs * 10 ^ k := by
    rw [← hm]
    exact Nat.div_mul_cancel (hdvd10.mul_left q.num.natAbs)
  have hden0 : (q.den : ℚ) ≠ 0 := by exact_mod_cast q.den_nz
  have hmQ : (m : ℚ) * (q.den : ℚ) = (q.num.natAbs : ℚ) * (10 : ℚ) ^ k := by
    exact_mod_cast hmden
  have hnum := rat_num_eq_mul_den q
  have h10 : (((10 ^ k : Nat) : Int) : ℚ) ≠ 0 := by positivity
  rw [Rat.mkRat_eq_divInt, Rat.divInt_eq_div]
  rw [div_eq_iff h10]
  by_cases hneg : q.num < 0
  · rw [if_pos hneg]
    have habs : ((q.num.natAbs : ℚ)) = -(q.num : ℚ) := by
      rw [Int.cast_natAbs, Int.cast_abs]
      exact abs_of_neg (by exact_mod_cast hneg)
    apply mul_right_cancel₀ hden0
    push_cast
    linear_combination (-1 : ℚ) * hmQ - ((10 : ℚ) ^ k) * habs + ((10 : ℚ) ^ k) * hnum
  · rw [if_neg hneg]
    have habs : ((q.num.natAbs : ℚ)) = (q.num : ℚ) := by
      rw [Int.cast_natAbs, Int.cast_abs]
      exact abs_of_nonneg (by exact_mod_cast not_lt.mp hneg)
    apply mul_right_cancel₀ hden0
    push_cast
    linear_combination hmQ + ((10 : ℚ) ^ k) * habs + ((10 : ℚ) ^ k) * hnum

theorem parseFloat_ratRepr {q : ℚ} (hq : EsDecimal q) :
    parseFloat (ratRepr q) = some q := by
  have hq' : q.den ∣ 10 ^ decExp q := hq
  have hden_pos : 0 < (10 : Nat) ^ decExp q := by positivity
  have hks : ratRepr q =
      (if (q.num < 0) then ['-'] else []) ++
        natRepr (q.num.natAbs * 10 ^ decExp q / q.den / 10 ^ decExp q) ++
        '.' :: padDigits (decExp q) (q.num.natAbs * 10 ^ decExp q / q.den % 10 ^ decExp q) :=
    rfl
  rw [hks]
  rw [parseFloat_decimal (q.num < 0) _ _
    (natRepr_ne_nil _) (fun c hc => mem_natRepr_isDigit hc)
    (fun c hc => padDigits_all_digits hc) (padDigits_ne_nil _ _)]
  congr 1
  rw [digitsVal_natRepr, digitsVal_padDigits _ _
    (fun h0 => by rw [h0, pow_zero, Nat.mod_one])]
  set m : Nat := q.num.natAbs * 10 ^ decExp q / q.den with hmdef
  have hFlt : m % 10 ^ decExp q < 10 ^ decExp q := Nat.mod_lt _ hden_pos
  by_cases hk0 : decExp q = 0
  · have hF0 : m % 10 ^ decExp q = 0 := by rw [hk0, pow_zero, Nat.mod_one]
    have hlen : (padDigits (decExp q) (m % 10 ^ decExp q)).length = 1 := by
      rw [hk0]
      rfl
    have hI : m / 10 ^ decExp q = m := by rw [hk0, pow_zero, Nat.div_one]
    rw [hlen, hF0, hI]
    have hstep : mkRat ((if q.num < 0 then (-1 : Int) else 1) *
        ((m * 10 ^ 1 + 0 : Nat) : Int)) (10 ^ 1) =
        mkRat ((if q.num < 0 then (-1 : Int) else 1) * ((m : Nat) : Int)) (10 ^ 0) := by
      rw [Rat.mkRat_eq_divInt, Rat.divInt_eq_div, Rat.mkRat_eq_divInt, Rat.divInt_eq_div]
      push_cast
      ring
    rw [hstep]
    have hfin := mkRat_sgn_abs hq'
    rw [← hmdef] at hfin
    rw [hk0] at hfin
    exact hfin
  · have hlen : (padDigits (decExp q) (m % 10 ^ decExp q)).length = decExp q :=
      padDigits_length hk0 hFlt
    rw [hlen]
    have hIF : m / 10 ^ decExp q * 10 ^ decExp q + m % 10 ^ decExp q = m := by
      rw [Nat.mul_comm]
      exact Nat.div_add_mod m (10 ^ decExp q)
    rw [hIF]
    have hfin := mkRat_sgn_abs hq'
    rw [← hmdef] at hfin
    exact hfin

/-!  ## Line-level round trip  -/

theorem splitPipe_no_pipe : ∀ (s : List Char), '|' ∉ s → splitPipe s = [s]
  | [], _ => rfl
  | c :: t, h => by
    rw [splitPipe]
    have hc : ¬(c = '|') := fun hc => h (hc ▸ List.mem_cons_self c t)
    rw [if_neg hc]
    rw [splitPipe_no_pipe t (fun ht => h (List.mem_cons_of_mem c ht))]

theorem splitPipe_append : ∀ (a r : List Char), '|' ∉ a →
    splitPipe (a ++ '|' :: r) = a :: splitPipe r
  | [], r, _ => by
    rw [List.nil_append, splitPipe, if_pos rfl]
  | c :: t, r, h => by
    rw [List.cons_append, splitPipe]
    have hc : ¬(c = '|') := fun hc => h (hc ▸ List.mem_cons_self c t)
    rw [if_neg hc]
    rw [splitPipe_append t r (fun ht => h (List.mem_cons_of_mem c ht))]

theorem mem_intRepr (i : Int) {c : Char} (hc : c ∈ intRepr i) :
    isDigitC c = true ∨ c = '-' := by
  unfold intRepr at hc
  by_cases hi : i < 0
  · rw [if_pos hi] at hc
    rcases List.mem_cons.mp hc with rfl | h
    · exact Or.inr rfl
    · exact Or.inl (mem_natRepr_isDigit h)
  · rw [if_neg hi] at hc
    exact Or.inl (mem_natRepr_isDigit hc)

theorem mem_ratRepr (q : ℚ) {c : Char} (hc : c ∈ ratRepr q) :
    isDigitC c = true ∨ c = '-' ∨ c = '.' := by
  unfold ratRepr at hc
  simp only [List.mem_append, List.mem_cons] at hc
  rcases hc with (hs | hn) | (hdot | hp)
  · by_cases hneg : q.num < 0
    · rw [if_pos hneg] at hs
      rw [List.mem_singleton] at hs
      exact Or.inr (Or.inl hs)
    · rw [if_neg hneg] at hs
      simp at hs
  · exact Or.inl (mem_natRepr_isDigit hn)
  · exact Or.inr (Or.inr hdot)
  · exact Or.inl (padDigits_all_digits hp)

theorem intRepr_props (i : Int) {c : Char} (hc : c ∈ intRepr i) :
    pyIsSpace c = false ∧ c ≠ '|' := by
  rcases mem_intRepr i hc with h | h
  · exact ⟨(isDigitC_props h).1, (isDigitC_props h).2.1⟩
  · subst h
    exact ⟨by decide, by decide⟩

theorem ratRepr_props (q : ℚ) {c : Char} (hc : c ∈ ratRepr q) :
    pyIsSpace c = false ∧ c ≠ '|' := by
  rcases mem_ratRepr q hc with h | h | h
  · exact ⟨(isDigitC_props h).1, (isDigitC_props h).2.1⟩
  · subst h
    exact ⟨by decide, by decide⟩
  · subst h
    exact ⟨by decide, by decide⟩

theorem intRepr_no_pipe (i : Int) : '|' ∉ intRepr i :=
  fun h => (intRepr_props i h).2 rfl

theorem ratRepr_no_pipe (q : ℚ) : '|' ∉ ratRepr q :=
  fun h => (ratRepr_props q h).2 rfl

theorem stripL_intRepr (i : Int) : stripL (intRepr i) = intRepr i :=
  stripL_eq_self
    (fun c hc => (intRepr_props i (List.mem_of_mem_head? hc)).1)
    (fun c hc => (intRepr_props i (List.mem_of_getLast?_eq_some hc)).1)

theorem stripL_ratRepr (q : ℚ) : stripL (ratRepr q) = ratRepr q :=
  stripL_eq_self
    (fun c hc => (ratRepr_props q (List.mem_of_mem_head? hc)).1)
    (fun c hc => (ratRepr_props q (List.mem_of_getLast?_eq_some hc)).1)

theorem ratRepr_ne_nil (q : ℚ) : ratRepr q ≠ [] := by
  unfold ratRepr
  simp

theorem buenCampo_props {s : List Char} (h : buenCampo s = true) :
    s ≠ [] ∧ '|' ∉ s ∧ stripL s = s ∧
    (∀ c, s.head? = some c → pyIsSpace c = false) := by
  unfold buenCampo at h
  simp only [Bool.and_eq_true] at h
  obtain ⟨⟨⟨⟨h1, h2⟩, h3⟩, h4⟩, h5⟩ := h
  have hne : s ≠ [] := by
    intro hnil
    subst hnil
    simp at h1
  have hpipe : '|' ∉ s := by
    intro hmem
    rw [Bool.not_eq_true'] at h2
    rw [show s.contains '|' = List.elem '|' s from rfl, List.elem_eq_mem] at h2
    simp [hmem] at h2
  have hhead : ∀ c, s.head? = some c → pyIsSpace c = false := by
    intro c hc
    rw [hc] at h4
    simpa using h4
  have hlast : ∀ c, s.getLast? = some c → pyIsSpace c = false := by
    intro c hc
    rw [hc] at h5
    simpa using h5
  exact ⟨hne, hpipe, stripL_eq_self hhead hlast, hhead⟩

theorem head?_append_left {a b : List Char} (h : a ≠ []) : (a ++ b).head? = a.head? := by
  cases a with
  | nil => exact absurd rfl h
  | cons c t => rfl

theorem getLast?_append_right {a b : List Char} (h : b ≠ []) :
    (a ++ b).getLast? = b.getLast? := by
  rw [← List.head?_reverse, List.reverse_append,
    head?_append_left (by simpa using h), List.head?_reverse]

theorem getLast?_cons_ne {c : Char} {t : List Char} (h : t ≠ []) :
    (c :: t).getLast? = t.getLast? := by
  rw [show (c :: t) = [c] ++ t from rfl, getLast?_append_right h]

theorem producto_a_linea_eq (p : Producto) : producto_a_linea p =
    p.id ++ '|' :: (p.nombre ++ '|' :: (intRepr p.cantidad ++ '|' :: ratRepr p.precio)) := by
  unfold producto_a_linea
  simp only [List.append_assoc, List.cons_append]

theorem producto_a_linea_ne_nil (p : Producto) : (producto_a_linea p).isEmpty = false := by
  rw [List.isEmpty_eq_false]
  rw [producto_a_linea_eq]
  simp

theorem stripL_producto_a_linea {p : Producto} (hb : BuenProducto p) :
    stripL (producto_a_linea p) = producto_a_linea p := by
  obtain ⟨hid, hnom, _⟩ := hb
  obtain ⟨hid_ne, _, _, hid_head⟩ := buenCampo_props hid
  have hlast : (producto_a_linea p).getLast? = (ratRepr p.precio).getLast? := by
    rw [producto_a_linea_eq]
    rw [getLast?_append_right (by simp), getLast?_cons_ne (by simp),
      getLast?_append_right (by simp), getLast?_cons_ne (by simp),
      getLast?_append_right (by simp), getLast?_cons_ne (ratRepr_ne_nil p.precio)]
  refine stripL_eq_self ?_ ?_
  · intro c hc
    rw [producto_a_linea_eq, head?_append_left hid_ne] at hc
    exact hid_head c hc
  · intro c hc
    rw [hlast] at hc
    exact (ratRepr_props p.precio (List.mem_of_getLast?_eq_some hc)).1

theorem splitPipe_producto_a_linea {p : Producto} (hb : BuenProducto p) :
    splitPipe (producto_a_linea p) =
      [p.id, p.nombre, intRepr p.cantidad, ratRepr p.precio] := by
  obtain ⟨hid, hnom, _⟩ := hb
  rw [producto_a_linea_eq]
  rw [splitPipe_append _ _ (buenCampo_props hid).2.1,
    splitPipe_append _ _ (buenCampo_props hnom).2.1,
    splitPipe_append _ _ (intRepr_no_pipe p.cantidad),
    splitPipe_no_pipe _ (ratRepr_no_pipe p.precio)]

theorem linea_roundtrip {p : Producto} (hb : BuenProducto p) :
    linea_a_producto (producto_a_linea p) = .ok p := by
  obtain ⟨hid, hnom, hdec⟩ := hb
  obtain ⟨hid_ne, _, hid_strip, _⟩ := buenCampo_props hid
  obtain ⟨hnom_ne, _, hnom_strip, _⟩ := buenCampo_props hnom
  unfold linea_a_producto
  rw [stripL_producto_a_linea ⟨hid, hnom, hdec⟩, splitPipe_producto_a_linea ⟨hid, hnom, hdec⟩]
  simp [hid_strip, hnom_strip, stripL_intRepr, stripL_ratRepr, parseInt_intRepr,
    parseFloat_ratRepr hdec, List.isEmpty_eq_false.mpr hid_ne,
    List.isEmpty_eq_false.mpr hnom_ne]

theorem buscar_por_id_eq_none {l : List Producto} {i : List Char} (h : i ∉ idsDe l) :
    buscar_por_id l i = none := by
  induction l with
  | nil => rfl
  | cons q t ih =>
    rw [buscar_por_id]
    rw [idsDe, List.map_cons, List.mem_cons] at h
    push_neg at h
    rw [if_neg (fun hq => h.1 hq.symm)]
    exact ih h.2

theorem nodup_middle_not_left {acc : List Producto} {p : Producto} {t : List Producto}
    (h : NoDupIds (acc ++ p :: t)) : p.id ∉ idsDe acc := by
  unfold NoDupIds idsDe at h
  rw [List.map_append, List.nodup_append] at h
  intro hmem
  exact h.2.2 hmem (by simp)

theorem cargarPaso_roundtrip {p : Producto} {n : Nat} {acc : List Producto}
    {avisos : List Aviso} (hbp : BuenProducto p) (hnotin : p.id ∉ idsDe acc) :
    cargarPaso n acc avisos (producto_a_linea p) = (acc ++ [p], avisos) := by
  simp only [cargarPaso]
  rw [stripL_producto_a_linea hbp, producto_a_linea_ne_nil p]
  simp only [Bool.false_eq_true, if_false]
  rw [linea_roundtrip hbp]
  simp [buscar_por_id_eq_none hnotin]

theorem cargar_roundtrip : ∀ (l : List Producto) (n : Nat) (acc : List Producto)
    (avisos : List Aviso), NoDupIds (acc ++ l) → (∀ p ∈ l, BuenProducto p) →
    cargarAux n acc avisos (l.map producto_a_linea) = (acc ++ l, avisos)
  | [], n, acc, avisos, _, _ => by simp [cargarAux]
  | p :: t, n, acc, avisos, hnd, hb => by
    rw [List.map_cons, cargarAux]
    rw [cargarPaso_roundtrip (hb p (List.mem_cons_self p t)) (nodup_middle_not_left hnd)]
    have hrec := cargar_roundtrip t (n + 1) (acc ++ [p]) avisos
      (by rwa [List.append_assoc, List.singleton_append])
      (fun q hq => hb q (List.mem_cons_of_mem p hq))
    dsimp only
    rw [hrec, List.append_assoc, List.singleton_append]

/-- C5: serializing any duplicate-free in-memory sequence of well-formed
records (nonempty ids and names that contain no separator and no
surrounding whitespace, prices that are exact decimal values — the only
values the program itself ever writes) and reloading the lines through the
load path reproduces exactly the same records in the same order, with no
warnings. -/
theorem c5_ida_y_vuelta (l : List Producto) (hne : l ≠ []) (hnd : NoDupIds l)
    (hb : ∀ p ∈ l, BuenProducto p) :
    cargarLineas (l.map producto_a_linea) = (l, []) := by
  unfold cargarLineas
  have h := cargar_roundtrip l 1 [] [] (by simpa using hnd) hb
  simpa using h

/-- C5 witness at a concrete two-record store (negative quantity and a
fractional price included). -/
theorem c5_ida_y_vuelta_witness :
    ([⟨['A', '1'], ['W', 'i', 'd'], 5, mkRat 999 100⟩,
      ⟨['B'], ['u', ' ', 'v'], -3, mkRat 1 2⟩] : List Producto) ≠ [] ∧
    NoDupIds [⟨['A', '1'], ['W', 'i', 'd'], 5, mkRat 999 100⟩,
      ⟨['B'], ['u', ' ', 'v'], -3, mkRat 1 2⟩] ∧
    (∀ p ∈ ([⟨['A', '1'], ['W', 'i', 'd'], 5, mkRat 999 100⟩,
      ⟨['B'], ['u', ' ', 'v'], -3, mkRat 1 2⟩] : List Producto), BuenProducto p) ∧
    cargarLineas (([⟨['A', '1'], ['W', 'i', 'd'], 5, mkRat 999 100⟩,
        ⟨['B'], ['u', ' ', 'v'], -3, mkRat 1 2⟩] : List Producto).map producto_a_linea) =
      ([⟨['A', '1'], ['W', 'i', 'd'], 5, mkRat 999 100⟩,
        ⟨['B'], ['u', ' ', 'v'], -3, mkRat 1 2⟩], []) :=
  ⟨by decide, by decide, by decide,
    c5_ida_y_vuelta _ (by decide) (by decide) (by decide)⟩
